import Mathlib

/-!
Verification of the Partituras score-to-MIDI transcription engine.

Shallow embedding of the three Python source files:
 - xml_to_midi.py        (DirectXMLtoMIDIConverter: key-signature resolver,
                          tie-chain assembler, two-channel track assembler)
 - advanced_mscz_converter.py (AdvancedMSCZConverter: track-structure
                          analysis, hand-split heuristic, separated-MIDI
                          track assembler)
 - converter.py          (YamahaCSPConverter: re-encoding of an already
                          rendered MIDI into two per-hand channel tracks)

MIDI ticks and pitches are natural numbers; delta times are integers
(Python ints).  Fallible paths are modelled with Option.
-/

namespace Partituras

/-! ## Key Signature Resolver (xml_to_midi.py, `_get_key_signature`) -/

/-- One `KeySig` declaration of the score XML: the optional text of its
`accidental` child (absent node or node with empty text are both `none`)
and the optional text of its `mode` child. -/
structure KeySig where
  accidental : Option String
  mode : Option String
deriving DecidableEq

/-- `self.SHARPS_TO_MAJOR` dictionary; `Option` models `dict.get`. -/
def SHARPS_TO_MAJOR : Int → Option String := fun f =>
  if f = 0 then some "C" else if f = 1 then some "G" else if f = 2 then some "D"
  else if f = 3 then some "A" else if f = 4 then some "E" else if f = 5 then some "B"
  else if f = 6 then some "F#" else if f = 7 then some "C#"
  else if f = -1 then some "F" else if f = -2 then some "Bb" else if f = -3 then some "Eb"
  else if f = -4 then some "Ab" else if f = -5 then some "Db" else if f = -6 then some "Gb"
  else if f = -7 then some "Cb" else none

/-- `self.SHARPS_TO_MINOR` dictionary. -/
def SHARPS_TO_MINOR : Int → Option String := fun f =>
  if f = 0 then some "Am" else if f = 1 then some "Em" else if f = 2 then some "Bm"
  else if f = 3 then some "F#m" else if f = 4 then some "C#m" else if f = 5 then some "G#m"
  else if f = 6 then some "D#m" else if f = 7 then some "A#m"
  else if f = -1 then some "Dm" else if f = -2 then some "Gm" else if f = -3 then some "Cm"
  else if f = -4 then some "Fm" else if f = -5 then some "Bbm" else if f = -6 then some "Ebm"
  else if f = -7 then some "Abm" else none

/-- Python `str.strip()` on a character list: drop leading and trailing
whitespace. -/
def stripChars (l : List Char) : List Char :=
  ((l.dropWhile Char.isWhitespace).reverse.dropWhile Char.isWhitespace).reverse

/-- Python `str.strip()` (no arguments): strip surrounding whitespace. -/
def pyStrip (s : String) : String :=
  String.mk (stripChars s.data)

/-- Digit accumulation for `pyInt`. -/
def digitsToNat (acc : Nat) : List Char → Option Nat
  | [] => some acc
  | c :: rest =>
    if c.isDigit then digitsToNat (acc * 10 + (c.toNat - '0'.toNat)) rest else none

/-- Python `int(s)` on an already-stripped string: an optional sign
followed by at least one decimal digit; anything else raises
`ValueError`, modelled by `none`.  (Python also accepts underscore
digit separators and surrounding whitespace, which never occur here.) -/
def pyInt (s : String) : Option Int :=
  match s.data with
  | [] => none
  | '-' :: rest =>
    if rest = [] then none else (digitsToNat 0 rest).map (fun n => -(n : Int))
  | '+' :: rest =>
    if rest = [] then none else (digitsToNat 0 rest).map (fun n => (n : Int))
  | l => (digitsToNat 0 l).map (fun n => (n : Int))

/-- `_get_key_signature`, iterating over all `KeySig` declarations in
document order.  A declaration whose `accidental` text is absent is
skipped (debug print, loop continues); likewise one whose stripped text
is empty.  A stripped non-empty text is fed to Python `int()`: a parse
failure raises `ValueError`, which the enclosing `try` catches,
returning `"C"` — so the scan stops there.  On success the
mode-selected dictionary is consulted with default `"C"` and the result
returned immediately. -/
def getKeySignature : List KeySig → String
  | [] => "C"
  | ks :: rest =>
    match ks.accidental with
    | none => getKeySignature rest
    | some txt =>
      let fifthsText := pyStrip txt
      if fifthsText ≠ "" then
        match pyInt fifthsText with
        | none => "C"
        | some fifths =>
          let mode := ks.mode.getD "major"
          let keyMap := if mode = "minor" then SHARPS_TO_MINOR else SHARPS_TO_MAJOR
          (keyMap fifths).getD "C"
      else getKeySignature rest

/-- A declaration contributes to the scan iff its accidental text is
present and non-blank after stripping. -/
def hasAccContent (k : KeySig) : Bool :=
  match k.accidental with
  | none => false
  | some s => decide (pyStrip s ≠ "")

/-! ## Duration Resolver and Tie Chain Assembler
(xml_to_midi.py, `get_note_events_from_staff`) -/

/-- The `duration_map` dictionary built from the score division
(`ticks_per_quarter`), including the `black` and `breve` aliases added
by `update`; `dict.get(duration_type, 0)` gives default 0. -/
def durationMap (tpq : Nat) (s : String) : Nat :=
  if s = "whole" then tpq * 4 else if s = "half" then tpq * 2
  else if s = "quarter" then tpq else if s = "eighth" then tpq / 2
  else if s = "16th" then tpq / 4 else if s = "32nd" then tpq / 8
  else if s = "64th" then tpq / 16 else if s = "measure" then tpq * 2
  else if s = "black" then tpq else if s = "breve" then tpq * 2 else 0

/-- The resolved duration of an element: base duration from the map,
multiplied by 1.5 when a `dots` child is present.  Python computes
`int(base_duration * 1.5)` in floating point, which for the magnitudes
at hand is exactly the truncation `3 * base / 2`. -/
def resolveDur (tpq : Nat) (dt : String) (dotted : Bool) : Nat :=
  let b := durationMap tpq dt
  if dotted then 3 * b / 2 else b

/-- Kind of a resolved MIDI note event (`'note_on'` / `'note_off'`). -/
inductive EvType where
  | noteOn
  | noteOff
deriving DecidableEq

/-- A resolved event dict `{'tick': ..., 'type': ..., 'pitch': ...}`. -/
structure REvent where
  tick : Nat
  kind : EvType
  pitch : Nat
deriving DecidableEq

/-- One `Note` node of a `Chord`: optional `pitch` text (notes without a
`pitch` child are skipped by `continue`) and the presence of the
`.//Spanner/prev` and `.//Spanner/next` markers. -/
structure TieNote where
  pitch : Option Nat
  tiedFromPrev : Bool
  tiedToNext : Bool
deriving DecidableEq

/-- An element of a voice.  `chord`/`rest` carry the `durationType`
child text and whether a `dots` child exists; `other` covers elements
lacking a `durationType` child (skipped by `continue`) as well as
elements of any other tag (which fall through both branches without any
effect). -/
inductive VElement where
  | chord (durationType : String) (dotted : Bool) (notes : List TieNote)
  | rest (durationType : String) (dotted : Bool)
  | other
deriving DecidableEq

/-- A voice is its ordered list of elements. -/
abbrev Voice := List VElement

/-- A measure is its ordered list of `voice` children. -/
abbrev Measure := List Voice

/-- A staff is its ordered list of `Measure` children. -/
abbrev Staff := List Measure

/-- The mutable state of the staff scan: the accumulated `events` list,
the `current_tick` cursor and the `open_ties` dict (pitch ↦
(start_tick, accumulated_duration)), modelled as an association list in
insertion order. -/
structure AsmState where
  events : List REvent
  tick : Nat
  openTies : List (Nat × Nat × Nat)
deriving DecidableEq

/-- `pitch in open_ties` / `open_ties[pitch]`: first binding wins
(Python dict keys are unique; lookup of an absent key gives `none`). -/
def lookupTie : List (Nat × Nat × Nat) → Nat → Option (Nat × Nat)
  | [], _ => none
  | (q, sd) :: rest, p => if q = p then some sd else lookupTie rest p

/-- `open_ties[pitch] = v`: replace in place, or append when absent. -/
def setTie : List (Nat × Nat × Nat) → Nat → Nat × Nat → List (Nat × Nat × Nat)
  | [], p, sd => [(p, sd)]
  | (q, sd0) :: rest, p, sd => if q = p then (p, sd) :: rest else (q, sd0) :: setTie rest p sd

/-- `open_ties.pop(pitch)`'s removal effect. -/
def popTie : List (Nat × Nat × Nat) → Nat → List (Nat × Nat × Nat)
  | [], _ => []
  | (q, sd) :: rest, p => if q = p then rest else (q, sd) :: popTie rest p

/-- Processing of a single `Note` node of a `Chord` (the body of the
`for note_node in element.findall('Note')` loop), given the chord's
resolved `base_duration`. -/
def processNote (baseDur : Nat) (st : AsmState) (n : TieNote) : AsmState :=
  match n.pitch with
  | none => st
  | some p =>
    if n.tiedFromPrev then
      let st1 :=
        match lookupTie st.openTies p with
        | some (s, d) => { st with openTies := setTie st.openTies p (s, d + baseDur) }
        | none => st
      if n.tiedToNext then st1
      else
        match lookupTie st1.openTies p with
        | some (s, total) =>
          { st1 with
            events := st1.events ++ [⟨s, .noteOn, p⟩, ⟨s + total, .noteOff, p⟩],
            openTies := popTie st1.openTies p }
        | none => st1
    else
      if n.tiedToNext then { st with openTies := setTie st.openTies p (st.tick, baseDur) }
      else { st with events := st.events ++ [⟨st.tick, .noteOn, p⟩, ⟨st.tick + baseDur, .noteOff, p⟩] }

/-- Processing of one element of a voice: a `Chord` runs `processNote`
over its notes and then advances `current_tick` by its resolved
duration; a `Rest` only advances the cursor; anything else is a no-op. -/
def processElement (tpq : Nat) (st : AsmState) (el : VElement) : AsmState :=
  match el with
  | .chord dt dotted notes =>
    let d := resolveDur tpq dt dotted
    let st1 := notes.foldl (processNote d) st
    { st1 with tick := st1.tick + d }
  | .rest dt dotted => { st with tick := st.tick + resolveDur tpq dt dotted }
  | .other => st

/-- Processing of one voice in score order. -/
def processVoice (tpq : Nat) (st : AsmState) (v : Voice) : AsmState :=
  v.foldl (processElement tpq) st

/-- `get_note_events_from_staff`: nested iteration over measures and
voices from the initial state (`events = []`, `current_tick = 0`,
`open_ties = {}`), returning the accumulated events.  The division is
passed in (the source parses it from the `Division` tag). -/
def getNoteEventsFromStaff (tpq : Nat) (staff : Staff) : List REvent :=
  (staff.foldl (fun (st : AsmState) (m : Measure) =>
      m.foldl (fun st2 v => processVoice tpq st2 v) st)
    ⟨[], 0, []⟩).events

/-! ## Tie chains as voice fragments -/

/-- Resolved duration of one chain segment `(durationType, dotted)`. -/
def segDur (tpq : Nat) (sg : String × Bool) : Nat :=
  resolveDur tpq sg.1 sg.2

/-- The continuation of a tie chain for pitch `p`: every chord carries
the `tied_from_previous` marker, and all but the last also carry
`tied_to_next`. -/
def chainAfterFirst (p : Nat) : List (String × Bool) → List VElement
  | [] => []
  | [sg] => [.chord sg.1 sg.2 [⟨some p, true, false⟩]]
  | sg :: rest => .chord sg.1 sg.2 [⟨some p, true, true⟩] :: chainAfterFirst p rest

/-- A complete tie chain of pitch `p` over the given segments: the
first chord opens the chain (`tied_to_next` unless it is also the last),
the rest continue it.  A one-segment chain is a plain untied note. -/
def tieChain (p : Nat) : List (String × Bool) → List VElement
  | [] => []
  | [sg] => [.chord sg.1 sg.2 [⟨some p, false, false⟩]]
  | sg :: rest => .chord sg.1 sg.2 [⟨some p, false, true⟩] :: chainAfterFirst p rest

lemma lookupTie_setTie_self (l : List (Nat × Nat × Nat)) (p : Nat) (v : Nat × Nat) :
    lookupTie (setTie l p v) p = some v := by
  induction l with
  | nil => simp [setTie, lookupTie]
  | cons a rest ih =>
    obtain ⟨q, sd⟩ := a
    by_cases h : q = p <;> simp [setTie, lookupTie, h, ih]

lemma popTie_setTie (l : List (Nat × Nat × Nat)) (p : Nat) (v : Nat × Nat) :
    popTie (setTie l p v) p = popTie l p := by
  induction l with
  | nil => simp [setTie, popTie]
  | cons a rest ih =>
    obtain ⟨q, sd⟩ := a
    by_cases h : q = p <;> simp [setTie, popTie, h, ih]

lemma popTie_eq_of_lookup_none (l : List (Nat × Nat × Nat)) (p : Nat)
    (h : lookupTie l p = none) : popTie l p = l := by
  induction l with
  | nil => simp [popTie]
  | cons a rest ih =>
    obtain ⟨q, sd⟩ := a
    by_cases hq : q = p
    · simp [lookupTie, hq] at h
    · simp [lookupTie, hq] at h
      simp [popTie, hq, ih h]

lemma processChord_tiedMid (tpq p : Nat) (sg : String × Bool) (st : AsmState)
    (s0 d0 : Nat) (hlook : lookupTie st.openTies p = some (s0, d0)) :
    processElement tpq st (.chord sg.1 sg.2 [⟨some p, true, true⟩]) =
      AsmState.mk st.events (st.tick + segDur tpq sg)
        (setTie st.openTies p (s0, d0 + segDur tpq sg)) := by
  simp [processElement, processNote, hlook, segDur]

lemma processChord_tiedLast (tpq p : Nat) (sg : String × Bool) (st : AsmState)
    (s0 d0 : Nat) (hlook : lookupTie st.openTies p = some (s0, d0)) :
    processElement tpq st (.chord sg.1 sg.2 [⟨some p, true, false⟩]) =
      AsmState.mk
        (st.events ++ [⟨s0, .noteOn, p⟩, ⟨s0 + (d0 + segDur tpq sg), .noteOff, p⟩])
        (st.tick + segDur tpq sg)
        (popTie st.openTies p) := by
  simp [processElement, processNote, hlook, lookupTie_setTie_self, popTie_setTie,
    segDur]

lemma processChord_opens (tpq p : Nat) (sg : String × Bool) (st : AsmState) :
    processElement tpq st (.chord sg.1 sg.2 [⟨some p, false, true⟩]) =
      AsmState.mk st.events (st.tick + segDur tpq sg)
        (setTie st.openTies p (st.tick, segDur tpq sg)) := by
  simp [processElement, processNote, segDur]

lemma processChord_plain (tpq p : Nat) (sg : String × Bool) (st : AsmState) :
    processElement tpq st (.chord sg.1 sg.2 [⟨some p, false, false⟩]) =
      AsmState.mk
        (st.events ++ [⟨st.tick, .noteOn, p⟩, ⟨st.tick + segDur tpq sg, .noteOff, p⟩])
        (st.tick + segDur tpq sg) st.openTies := by
  simp [processElement, processNote, segDur]

lemma chainAfterFirst_spec (tpq p : Nat) :
    ∀ (segs : List (String × Bool)) (st : AsmState) (s0 d0 : Nat),
      segs ≠ [] → lookupTie st.openTies p = some (s0, d0) →
      processVoice tpq st (chainAfterFirst p segs) =
        AsmState.mk
          (st.events ++
            [⟨s0, .noteOn, p⟩, ⟨s0 + d0 + (segs.map (segDur tpq)).sum, .noteOff, p⟩])
          (st.tick + (segs.map (segDur tpq)).sum)
          (popTie st.openTies p) := by
  intro segs
  induction segs with
  | nil => intro st s0 d0 hne _; exact absurd rfl hne
  | cons sg rest ih =>
    intro st s0 d0 _ hlook
    cases rest with
    | nil =>
      show processVoice tpq st [VElement.chord sg.1 sg.2 [⟨some p, true, false⟩]] = _
      rw [processVoice, List.foldl_cons, List.foldl_nil,
        processChord_tiedLast tpq p sg st s0 d0 hlook]
      simp [Nat.add_assoc]
    | cons sg2 rest2 =>
      show processVoice tpq st
          (VElement.chord sg.1 sg.2 [⟨some p, true, true⟩] ::
            chainAfterFirst p (sg2 :: rest2)) = _
      rw [processVoice, List.foldl_cons, processChord_tiedMid tpq p sg st s0 d0 hlook]
      have hrec := ih (AsmState.mk st.events (st.tick + segDur tpq sg)
          (setTie st.openTies p (s0, d0 + segDur tpq sg)))
          s0 (d0 + segDur tpq sg) (by simp) (lookupTie_setTie_self _ _ _)
      rw [processVoice] at hrec
      rw [hrec, popTie_setTie]
      simp [Nat.add_assoc]

/-- C1: for every tie chain of length n with per-segment resolved
durations d1..dn, processed from any state in which the chain's pitch
has no open tie, the assembler appends exactly one NoteOn at the
chain's original start tick and exactly one NoteOff at start + Σdi,
independent of n; the cursor advances by Σdi and the open-tie map is
restored. -/
theorem tie_chain_emits_single_pair (tpq p : Nat) (segs : List (String × Bool))
    (st : AsmState) (hne : segs ≠ []) (hopen : lookupTie st.openTies p = none) :
    processVoice tpq st (tieChain p segs) =
      AsmState.mk
        (st.events ++
          [⟨st.tick, .noteOn, p⟩,
           ⟨st.tick + (segs.map (segDur tpq)).sum, .noteOff, p⟩])
        (st.tick + (segs.map (segDur tpq)).sum)
        st.openTies := by
  cases segs with
  | nil => exact absurd rfl hne
  | cons sg rest =>
    cases rest with
    | nil =>
      show processVoice tpq st [VElement.chord sg.1 sg.2 [⟨some p, false, false⟩]] = _
      rw [processVoice, List.foldl_cons, List.foldl_nil, processChord_plain]
      simp [Nat.add_assoc]
    | cons sg2 rest2 =>
      show processVoice tpq st
          (VElement.chord sg.1 sg.2 [⟨some p, false, true⟩] ::
            chainAfterFirst p (sg2 :: rest2)) = _
      rw [processVoice, List.foldl_cons, processChord_opens]
      have hrec := chainAfterFirst_spec tpq p (sg2 :: rest2)
        (AsmState.mk st.events (st.tick + segDur tpq sg)
          (setTie st.openTies p (st.tick, segDur tpq sg)))
        st.tick (segDur tpq sg) (by simp) (lookupTie_setTie_self _ _ _)
      rw [processVoice] at hrec
      rw [hrec, popTie_setTie, popTie_eq_of_lookup_none _ _ hopen]
      simp [Nat.add_assoc]

/-- Witness for C1: a three-segment chain (whole, dotted half, quarter)
at division 480 starting at tick 0 yields NoteOn at 0 and NoteOff at
1920 + 1440 + 480 = 3840. -/
theorem tie_chain_emits_single_pair_witness :
    processVoice 480 ⟨[], 0, []⟩
        (tieChain 64 [("whole", false), ("half", true), ("quarter", false)]) =
      { events := [⟨0, .noteOn, 64⟩, ⟨3840, .noteOff, 64⟩], tick := 3840,
        openTies := [] } := by
  have h := tie_chain_emits_single_pair 480 64
    [("whole", false), ("half", true), ("quarter", false)] ⟨[], 0, []⟩
    (by decide) rfl
  exact h.trans (by decide)

/-- The two-element staff of C2's scenario: one measure, one voice, a
half note tied to a quarter note of the same pitch 60. -/
def c2Staff : Staff :=
  [[[ .chord "half" false [⟨some 60, false, true⟩],
      .chord "quarter" false [⟨some 60, true, false⟩] ]]]

/-- C2 counterexample: at division 480 the half-tied-to-quarter chain
produces NoteOff at tick 1440 (= 960 + 480), not at tick 720 as the
claim states. -/
theorem c2_staff_events_not_at_720 :
    getNoteEventsFromStaff 480 c2Staff = [⟨0, .noteOn, 60⟩, ⟨1440, .noteOff, 60⟩] ∧
    getNoteEventsFromStaff 480 c2Staff ≠ [⟨0, .noteOn, 60⟩, ⟨720, .noteOff, 60⟩] := by
  constructor
  · decide
  · decide

/-- C2 (amended): with division=480, a half note tied to a quarter note
of the same pitch produces exactly one NoteOn at tick 0 and one NoteOff
at tick 1440. -/
theorem c2_staff_events_at_1440 :
    getNoteEventsFromStaff 480 c2Staff =
      [⟨0, .noteOn, 60⟩, ⟨1440, .noteOff, 60⟩] := by
  decide

/-- Every branch of `processNote` leaves the tick cursor unchanged. -/
lemma processNote_tick (d : Nat) (st : AsmState) (n : TieNote) :
    (processNote d st n).tick = st.tick := by
  obtain ⟨op, tfp, ttn⟩ := n
  cases op with
  | none => rfl
  | some p =>
    cases h1 : lookupTie st.openTies p with
    | none => cases tfp <;> cases ttn <;> simp [processNote, h1]
    | some sd =>
      obtain ⟨s0, d0⟩ := sd
      cases tfp <;> cases ttn <;> simp [processNote, h1, lookupTie_setTie_self]

lemma foldl_processNote_tick (d : Nat) :
    ∀ (notes : List TieNote) (st : AsmState),
      (notes.foldl (processNote d) st).tick = st.tick := by
  intro notes
  induction notes with
  | nil => intro st; rfl
  | cons n rest ih => intro st; rw [List.foldl_cons, ih, processNote_tick]

/-- C10: a chord note carrying `tied_from_previous` whose pitch has no
open tie chain is silently dropped — no event is emitted, no tie is
opened and no error is raised (`processNote` is the identity on the
state) — while the enclosing chord still advances the time cursor by
its resolved duration. -/
theorem orphan_tied_note_dropped :
    (∀ (st : AsmState) (d p : Nat) (b : Bool),
        lookupTie st.openTies p = none → processNote d st ⟨some p, true, b⟩ = st)
    ∧ (∀ (tpq : Nat) (st : AsmState) (dt : String) (dotted : Bool)
        (notes : List TieNote),
        (processElement tpq st (.chord dt dotted notes)).tick =
          st.tick + resolveDur tpq dt dotted) := by
  constructor
  · intro st d p b h
    cases b <;> simp [processNote, h]
  · intro tpq st dt dotted notes
    simp [processElement, foldl_processNote_tick]

/-- Witness for C10: an orphan tied note at pitch 60 in the initial
state leaves the state untouched, and its quarter-note chord still
advances the cursor by 480 ticks at division 480. -/
theorem orphan_tied_note_dropped_witness :
    processNote 480 ⟨[], 0, []⟩ ⟨some 60, true, false⟩ = ⟨[], 0, []⟩ ∧
    (processElement 480 ⟨[], 0, []⟩
      (.chord "quarter" false [⟨some 60, true, false⟩])).tick = 480 := by
  refine ⟨orphan_tied_note_dropped.1 ⟨[], 0, []⟩ 480 60 false rfl, ?_⟩
  exact (orphan_tied_note_dropped.2 480 ⟨[], 0, []⟩ "quarter" false
    [⟨some 60, true, false⟩]).trans (by decide)

/-! ## Theorems about the key signature resolver (C4, C9) -/

lemma getKeySignature_skip (k : KeySig) (l : List KeySig)
    (h : hasAccContent k = false) :
    getKeySignature (k :: l) = getKeySignature l := by
  obtain ⟨acc, mode⟩ := k
  cases acc with
  | none => simp [getKeySignature]
  | some s =>
    simp only [hasAccContent, decide_eq_false_iff_not, not_not] at h
    simp [getKeySignature, h]

lemma getKeySignature_cons_of_parse (rest : List KeySig) (a : String)
    (m : Option String) (f : Int) (hne : pyStrip a ≠ "")
    (hf : pyInt (pyStrip a) = some f) :
    getKeySignature (⟨some a, m⟩ :: rest) =
      ((if m.getD "major" = "minor" then SHARPS_TO_MINOR else SHARPS_TO_MAJOR)
        f).getD "C" := by
  simp only [getKeySignature, if_pos hne, hf]

lemma getKeySignature_cons_of_parse_fail (rest : List KeySig) (a : String)
    (m : Option String) (hne : pyStrip a ≠ "")
    (hf : pyInt (pyStrip a) = none) :
    getKeySignature (⟨some a, m⟩ :: rest) = "C" := by
  simp only [getKeySignature, if_pos hne, hf]

lemma getKeySignature_append_skip (pre l : List KeySig)
    (h : ∀ k ∈ pre, hasAccContent k = false) :
    getKeySignature (pre ++ l) = getKeySignature l := by
  induction pre with
  | nil => rfl
  | cons k rest ih =>
    rw [List.cons_append, getKeySignature_skip k _ (h k (by simp)),
      ih (fun k2 hk2 => h k2 (by simp [hk2]))]

lemma sharpsToMajor_out_of_range (f : Int) (h : f < -7 ∨ 7 < f) :
    SHARPS_TO_MAJOR f = none := by
  simp only [SHARPS_TO_MAJOR]
  repeat rw [if_neg (by omega)]

lemma sharpsToMinor_out_of_range (f : Int) (h : f < -7 ∨ 7 < f) :
    SHARPS_TO_MINOR f = none := by
  simp only [SHARPS_TO_MINOR]
  repeat rw [if_neg (by omega)]

/-- C4 counterexample: a declaration with accidental count 8 (outside
−7..+7) makes the resolver return "C" for the whole scan even though a
later valid declaration (1 sharp, which alone resolves to "G") follows;
the scan does not continue. -/
theorem keysig_out_of_range_cex :
    getKeySignature [⟨some "8", none⟩, ⟨some "1", none⟩] = "C" ∧
    getKeySignature [⟨some "1", none⟩] = "G" := by
  constructor
  · decide
  · decide

/-- C4 (amended): a key-signature declaration whose accidental count is
outside −7..+7 makes the resolver fall back to "C" non-fatally, but the
result is returned immediately — the scan stops and later declarations
cannot change it; similarly a parse failure aborts the scan with "C". -/
theorem keysig_out_of_range_returns_C :
    (∀ (pre rest : List KeySig) (a : String) (m : Option String) (f : Int),
        (∀ k ∈ pre, hasAccContent k = false) → pyStrip a ≠ "" →
        pyInt (pyStrip a) = some f → (f < -7 ∨ 7 < f) →
        getKeySignature (pre ++ ⟨some a, m⟩ :: rest) = "C")
    ∧ (∀ (pre rest : List KeySig) (a : String) (m : Option String),
        (∀ k ∈ pre, hasAccContent k = false) → pyStrip a ≠ "" →
        pyInt (pyStrip a) = none →
        getKeySignature (pre ++ ⟨some a, m⟩ :: rest) = "C") := by
  constructor
  · intro pre rest a m f hpre hne hparse hout
    rw [getKeySignature_append_skip pre _ hpre,
      getKeySignature_cons_of_parse rest a m f hne hparse]
    by_cases hm : m.getD "major" = "minor" <;>
      simp [hm, sharpsToMajor_out_of_range f hout, sharpsToMinor_out_of_range f hout]
  · intro pre rest a m hpre hne hparse
    rw [getKeySignature_append_skip pre _ hpre,
      getKeySignature_cons_of_parse_fail rest a m hne hparse]

/-- Witness for C4: accidental "9" (minor mode) followed by a valid
declaration still yields "C". -/
theorem keysig_out_of_range_returns_C_witness :
    getKeySignature [⟨some "9", some "minor"⟩, ⟨some "0", none⟩] = "C" := by
  exact keysig_out_of_range_returns_C.1 [] [⟨some "0", none⟩] "9" (some "minor") 9
    (by simp) (by decide) (by decide) (by omega)

/-- C9 counterexample: a present but unparseable accidental text is not
skipped — the resolver returns "C" even though the first *parseable*
declaration (2 sharps, alone resolving to "D") follows it. -/
theorem keysig_unparseable_cex :
    getKeySignature [⟨some "x", none⟩, ⟨some "2", none⟩] = "C" ∧
    getKeySignature [⟨some "2", none⟩] = "D" := by
  constructor
  · decide
  · decide

/-- C9 (amended): the resolver returns the key of the first declaration
whose accidental text is present and non-blank — declarations with
absent or blank accidental fields are skipped, but an unparseable text
aborts the scan with "C" — combining the parsed count with the adjacent
mode indicator (defaulting to major when absent); it returns "C" when
no declaration has content; accidental=2 with mode=minor yields "Bm". -/
theorem keysig_first_content_resolves :
    (∀ (pre rest : List KeySig) (a : String) (m : Option String) (f : Int),
        (∀ k ∈ pre, hasAccContent k = false) → pyStrip a ≠ "" →
        pyInt (pyStrip a) = some f →
        getKeySignature (pre ++ ⟨some a, m⟩ :: rest) =
          ((if m.getD "major" = "minor" then SHARPS_TO_MINOR else SHARPS_TO_MAJOR)
            f).getD "C")
    ∧ (∀ l : List KeySig, (∀ k ∈ l, hasAccContent k = false) →
        getKeySignature l = "C")
    ∧ getKeySignature [⟨some "2", some "minor"⟩] = "Bm" := by
  refine ⟨?_, ?_, by decide⟩
  · intro pre rest a m f hpre hne hparse
    rw [getKeySignature_append_skip pre _ hpre,
      getKeySignature_cons_of_parse rest a m f hne hparse]
  · intro l hl
    induction l with
    | nil => rfl
    | cons k rest ih =>
      rw [getKeySignature_skip k _ (hl k (by simp)),
        ih (fun k2 hk2 => hl k2 (by simp [hk2]))]

/-- Witness for C9: a blank declaration followed by "-3" (no mode)
resolves to "Eb". -/
theorem keysig_first_content_resolves_witness :
    getKeySignature [⟨none, none⟩, ⟨some "-3", none⟩] = "Eb" := by
  have h := keysig_first_content_resolves.1 [⟨none, none⟩] [] "-3" none (-3)
    (by decide) (by decide) (by decide)
  exact h.trans (by decide)

/-! ## Hand-Split Heuristic
(advanced_mscz_converter.py, `_calculate_optimal_split`) -/

/-- Python `min(list)` on a non-empty list (0 for the empty list, which
the source never reaches). -/
def listMin : List Nat → Nat
  | [] => 0
  | x :: xs => xs.foldl min x

/-- Python `max(list)` on a non-empty list. -/
def listMax : List Nat → Nat
  | [] => 0
  | x :: xs => xs.foldl max x

/-- The local density around candidate `c`:
`for note in range(split_candidate - 2, split_candidate + 3)` summing
`note_counts.get(note, 0)`, where `note_counts` is the frequency
histogram of `all_notes` (so `get` is `List.count`).  Every candidate
the source evaluates satisfies `c ≥ 48`, so the truncated subtraction
agrees with Python. -/
def densityAt (allNotes : List Nat) (c : Nat) : Nat :=
  ((List.range' (c - 2) 5).map (fun n => allNotes.count n)).sum

/-- One iteration of the candidate loop: the running pair is
`(best_split, min_density)` with `min_density = none` modelling the
initial `float('inf')` (every finite density beats it). -/
def splitStep (f : Nat → Nat) (acc : Nat × Option Nat) (c : Nat) : Nat × Option Nat :=
  match acc.2 with
  | none => (c, some (f c))
  | some m => if f c < m then (c, some (f c)) else acc

/-- `_calculate_optimal_split`: 60 for an empty note list, otherwise
scan `range(max(48, min_note), min(72, max_note) + 1)` in ascending
order keeping the first candidate of strictly smallest density,
starting from `best_split = 60, min_density = inf`. -/
def calcOptimalSplit (allNotes : List Nat) : Nat :=
  if allNotes = [] then 60
  else
    let minNote := listMin allNotes
    let maxNote := listMax allNotes
    let searchStart := max 48 minNote
    let searchEnd := min 72 maxNote
    ((List.range' searchStart (searchEnd + 1 - searchStart)).foldl
      (splitStep (densityAt allNotes)) (60, none)).1

/-- Folding `splitStep` with a finite running minimum over an ascending
candidate range yields the first-wins argmin. -/
lemma splitStep_fold (f : Nat → Nat) :
    ∀ (n s b m : Nat), b < s →
      ∃ r m2, (List.range' s n).foldl (splitStep f) (b, some m) = (r, some m2) ∧
        ((r = b ∧ m2 = m) ∨ (s ≤ r ∧ r < s + n ∧ m2 = f r ∧ m2 < m)) ∧
        (∀ q, s ≤ q → q < s + n → m2 ≤ f q) ∧
        (∀ q, s ≤ q → q < s + n → q < r → m2 < f q) := by
  intro n
  induction n with
  | zero =>
    intro s b m _
    exact ⟨b, m, rfl, Or.inl ⟨rfl, rfl⟩, by intro q h1 h2; omega,
      by intro q h1 h2 _; omega⟩
  | succ n ih =>
    intro s b m hbs
    rw [List.range'_succ, List.foldl_cons]
    by_cases hfs : f s < m
    · rw [show splitStep f (b, some m) s = (s, some (f s)) by simp [splitStep, hfs]]
      obtain ⟨r, m2, heq, hcase, hmin, hstrict⟩ := ih (s + 1) s (f s) (by omega)
      refine ⟨r, m2, heq, ?_, ?_, ?_⟩
      · rcases hcase with ⟨hrb, hm2⟩ | ⟨h1, h2, h3, h4⟩
        · exact Or.inr ⟨by omega, by omega, by rw [hrb, hm2], by omega⟩
        · exact Or.inr ⟨by omega, by omega, h3, by omega⟩
      · intro q hq1 hq2
        by_cases hqs : q = s
        · subst hqs
          rcases hcase with ⟨_, hm2⟩ | ⟨_, _, _, h4⟩
          · omega
          · omega
        · exact hmin q (by omega) (by omega)
      · intro q hq1 hq2 hqr
        by_cases hqs : q = s
        · subst hqs
          rcases hcase with ⟨hrb, _⟩ | ⟨_, _, _, h4⟩
          · omega
          · omega
        · exact hstrict q (by omega) (by omega) hqr
    · rw [show splitStep f (b, some m) s = (b, some m) by simp [splitStep, hfs]]
      obtain ⟨r, m2, heq, hcase, hmin, hstrict⟩ := ih (s + 1) b m (by omega)
      refine ⟨r, m2, heq, ?_, ?_, ?_⟩
      · rcases hcase with ⟨hrb, hm2⟩ | ⟨h1, h2, h3, h4⟩
        · exact Or.inl ⟨hrb, hm2⟩
        · exact Or.inr ⟨by omega, by omega, h3, h4⟩
      · intro q hq1 hq2
        by_cases hqs : q = s
        · subst hqs
          rcases hcase with ⟨_, hm2⟩ | ⟨_, _, _, h4⟩
          · omega
          · omega
        · exact hmin q (by omega) (by omega)
      · intro q hq1 hq2 hqr
        by_cases hqs : q = s
        · subst hqs
          rcases hcase with ⟨hrb, _⟩ | ⟨_, _, _, h4⟩
          · omega
          · omega
        · exact hstrict q (by omega) (by omega) hqr

/-- Full characterisation of `calcOptimalSplit` on a non-empty note
list whose clamped candidate range is non-empty. -/
lemma calcOptimalSplit_spec (notes : List Nat) (hne : notes ≠ [])
    (hse : max 48 (listMin notes) ≤ min 72 (listMax notes)) :
    max 48 (listMin notes) ≤ calcOptimalSplit notes ∧
    calcOptimalSplit notes ≤ min 72 (listMax notes) ∧
    (∀ q, max 48 (listMin notes) ≤ q → q ≤ min 72 (listMax notes) →
      densityAt notes (calcOptimalSplit notes) ≤ densityAt notes q) ∧
    (∀ q, max 48 (listMin notes) ≤ q → q ≤ min 72 (listMax notes) →
      q < calcOptimalSplit notes →
      densityAt notes (calcOptimalSplit notes) < densityAt notes q) := by
  set s := max 48 (listMin notes) with hs
  set e := min 72 (listMax notes) with he
  have hlen : e + 1 - s = (e - s) + 1 := by omega
  have hstep0 : splitStep (densityAt notes) (60, none) s =
      (s, some (densityAt notes s)) := rfl
  obtain ⟨r, m2, heq, hcase, hmin, hstrict⟩ :=
    splitStep_fold (densityAt notes) (e - s) (s + 1) s (densityAt notes s)
      (by omega)
  have hcalc : calcOptimalSplit notes = r := by
    rw [calcOptimalSplit, if_neg hne]
    show (List.foldl (splitStep (densityAt notes)) (60, none)
        (List.range' s (e + 1 - s))).1 = r
    rw [hlen, List.range'_succ, List.foldl_cons, hstep0, heq]
  have hm2r : m2 = densityAt notes r := by
    rcases hcase with ⟨hrb, hm2⟩ | ⟨_, _, h3, _⟩
    · rw [hrb, hm2]
    · exact h3
  rw [hcalc]
  refine ⟨?_, ?_, ?_, ?_⟩
  · rcases hcase with ⟨hrb, _⟩ | ⟨h1, _, _, _⟩ <;> omega
  · rcases hcase with ⟨hrb, _⟩ | ⟨_, h2, _, _⟩ <;> omega
  · intro q hq1 hq2
    by_cases hqs : q = s
    · subst hqs
      rcases hcase with ⟨hrb, hm2⟩ | ⟨_, _, _, h4⟩ <;> omega
    · have := hmin q (by omega) (by omega)
      omega
  · intro q hq1 hq2 hqr
    by_cases hqs : q = s
    · subst hqs
      rcases hcase with ⟨hrb, _⟩ | ⟨_, _, _, h4⟩ <;> omega
    · have := hstrict q (by omega) (by omega) hqr
      omega

/-- C8: for every non-empty pitch multiset whose candidate range
[max(48,min), min(72,max)] is non-empty, the hand-split heuristic
returns a candidate in that range whose local density (sum of histogram
counts over [p−2, p+2]) is minimal, and strictly smaller than the
density of every earlier (lower) candidate — i.e. the ascending scan's
first-wins argmin. -/
theorem optimal_split_first_argmin (notes : List Nat) (hne : notes ≠ [])
    (hse : max 48 (listMin notes) ≤ min 72 (listMax notes)) :
    (max 48 (listMin notes) ≤ calcOptimalSplit notes ∧
      calcOptimalSplit notes ≤ min 72 (listMax notes)) ∧
    (∀ q, max 48 (listMin notes) ≤ q → q ≤ min 72 (listMax notes) →
      densityAt notes (calcOptimalSplit notes) ≤ densityAt notes q) ∧
    (∀ q, max 48 (listMin notes) ≤ q → q ≤ min 72 (listMax notes) →
      q < calcOptimalSplit notes →
      densityAt notes (calcOptimalSplit notes) < densityAt notes q) := by
  obtain ⟨h1, h2, h3, h4⟩ := calcOptimalSplit_spec notes hne hse
  exact ⟨⟨h1, h2⟩, h3, h4⟩

/-- Witness for C8: on [50, 52, 60, 70] the candidate range is [50, 70]
and the first zero-density candidate, 55, is selected. -/
theorem optimal_split_first_argmin_witness :
    (max 48 (listMin [50, 52, 60, 70]) ≤ calcOptimalSplit [50, 52, 60, 70] ∧
      calcOptimalSplit [50, 52, 60, 70] ≤ min 72 (listMax [50, 52, 60, 70])) ∧
    densityAt [50, 52, 60, 70] (calcOptimalSplit [50, 52, 60, 70]) ≤
      densityAt [50, 52, 60, 70] 60 ∧
    calcOptimalSplit [50, 52, 60, 70] = 55 := by
  have h := optimal_split_first_argmin [50, 52, 60, 70] (by decide) (by decide)
  exact ⟨h.1, h.2.1 60 (by decide) (by decide), by decide⟩

/-- C5 counterexample: for the non-empty multiset [30] the heuristic
returns 60, which is outside [min(pitches), max(pitches)] = [30, 30]
(the claimed intersection [48,72] ∩ [min,max] is empty, so no return
value could satisfy the claim). -/
theorem optimal_split_range_cex :
    calcOptimalSplit [30] = 60 ∧
    ¬(48 ≤ calcOptimalSplit [30] ∧ calcOptimalSplit [30] ≤ 72 ∧
      listMin [30] ≤ calcOptimalSplit [30] ∧
      calcOptimalSplit [30] ≤ listMax [30]) := by
  constructor
  · decide
  · decide

/-- C5 (amended): for every non-empty pitch multiset whose clamped
candidate range [max(48,min), min(72,max)] is non-empty, the heuristic
returns a value in [48,72] ∩ [min,max]; for the empty multiset, and
whenever the candidate range is empty, it returns 60. -/
theorem optimal_split_in_clamped_range :
    (∀ notes : List Nat, notes ≠ [] →
        max 48 (listMin notes) ≤ min 72 (listMax notes) →
        48 ≤ calcOptimalSplit notes ∧ calcOptimalSplit notes ≤ 72 ∧
        listMin notes ≤ calcOptimalSplit notes ∧
        calcOptimalSplit notes ≤ listMax notes)
    ∧ calcOptimalSplit [] = 60
    ∧ (∀ notes : List Nat, notes ≠ [] →
        min 72 (listMax notes) < max 48 (listMin notes) →
        calcOptimalSplit notes = 60) := by
  refine ⟨?_, rfl, ?_⟩
  · intro notes hne hse
    obtain ⟨h1, h2, _, _⟩ := calcOptimalSplit_spec notes hne hse
    refine ⟨by omega, by omega, by omega, by omega⟩
  · intro notes hne hlt
    rw [calcOptimalSplit, if_neg hne]
    have hzero : min 72 (listMax notes) + 1 - max 48 (listMin notes) = 0 := by omega
    simp only [hzero, List.range', List.foldl_nil]

/-- Witness for C5: [40, 60, 80] has clamped range [48, 72] and the
result lands inside it; [20, 30] has an empty clamped range and yields
the default 60. -/
theorem optimal_split_in_clamped_range_witness :
    (48 ≤ calcOptimalSplit [40, 60, 80] ∧ calcOptimalSplit [40, 60, 80] ≤ 72 ∧
      listMin [40, 60, 80] ≤ calcOptimalSplit [40, 60, 80] ∧
      calcOptimalSplit [40, 60, 80] ≤ listMax [40, 60, 80]) ∧
    calcOptimalSplit [20, 30] = 60 := by
  exact ⟨optimal_split_in_clamped_range.1 [40, 60, 80] (by decide) (by decide),
    optimal_split_in_clamped_range.2.2 [20, 30] (by decide) (by decide)⟩

/-! ## Track-structure analysis
(advanced_mscz_converter.py, `_analyze_track_structure`) -/

/-- Message type of a mido message, collapsed to the kinds the advanced
converter inspects. -/
inductive AType where
  | noteOn
  | noteOff
  | controlChange
  | programChange
  | otherType
deriving DecidableEq

/-- A mido message of the advanced converter's input.  The `note` and
`velocity` fields are only meaningful on note messages, `time` is the
delta time within its track. -/
structure AMsg where
  type : AType
  note : Nat
  velocity : Nat
  channel : Nat
  time : Nat
deriving DecidableEq

/-- `set.add`: the distinct elements in first-insertion order (only the
resulting `len` is consumed, which matches any set model). -/
def addChan (l : List Nat) (c : Nat) : List Nat :=
  if c ∈ l then l else l ++ [c]

/-- The mutable aggregate of `_analyze_track_structure`:
`channels_used`, the low/high `note_distribution` counters, the
flat `all_notes` list and `musical_tracks`. -/
structure TrackAccum where
  channels : List Nat
  low : Nat
  high : Nat
  allNotes : List Nat
  musicalTracks : Nat
deriving DecidableEq

/-- Body of the message loop: only `note_on` messages with positive
velocity are counted; they mark the track as note-bearing, record the
channel, the pitch and the register (below 60 / at-or-above 60).  The
per-track `track_channels` set is also built by the source but never
read afterwards, so it is omitted. -/
def analyzeMsg (acc : TrackAccum × Bool) (m : AMsg) : TrackAccum × Bool :=
  if m.type = .noteOn ∧ 0 < m.velocity then
    ({ acc.1 with
        channels := addChan acc.1.channels m.channel,
        allNotes := acc.1.allNotes ++ [m.note],
        low := if m.note < 60 then acc.1.low + 1 else acc.1.low,
        high := if m.note < 60 then acc.1.high else acc.1.high + 1 }, true)
  else acc

/-- Body of the track loop: scan the messages with a fresh `has_notes`
flag and bump `musical_tracks` when the track had notes. -/
def analyzeTrack (acc : TrackAccum) (track : List AMsg) : TrackAccum :=
  let r := track.foldl analyzeMsg (acc, false)
  if r.2 then { r.1 with musicalTracks := r.1.musicalTracks + 1 } else r.1

/-- The resulting analysis dict. -/
structure Analysis where
  needsSeparation : Bool
  totalTracks : Nat
  musicalTracks : Nat
  channelsUsed : List Nat
  low : Nat
  high : Nat
  splitPoint : Nat
deriving DecidableEq

/-- `_analyze_track_structure`: separation is needed exactly when at
most one channel is used and both register counters exceed 5; only then
is the optimal split computed (otherwise `split_point` keeps its
initial value 60). -/
def analyzeTrackStructure (tracks : List (List AMsg)) : Analysis :=
  let acc := tracks.foldl analyzeTrack ⟨[], 0, 0, [], 0⟩
  if acc.channels.length ≤ 1 ∧ 5 < acc.low ∧ 5 < acc.high then
    { needsSeparation := true, totalTracks := tracks.length,
      musicalTracks := acc.musicalTracks, channelsUsed := acc.channels,
      low := acc.low, high := acc.high,
      splitPoint := calcOptimalSplit acc.allNotes }
  else
    { needsSeparation := false, totalTracks := tracks.length,
      musicalTracks := acc.musicalTracks, channelsUsed := acc.channels,
      low := acc.low, high := acc.high, splitPoint := 60 }

/-- A message counted by the analysis: `note_on` with velocity > 0. -/
def countedNoteOn (m : AMsg) : Bool :=
  decide (m.type = AType.noteOn) && decide (0 < m.velocity)

/-- Channel-collection step shared by the closed forms below. -/
def chanStep (l : List Nat) (m : AMsg) : List Nat :=
  if countedNoteOn m then addChan l m.channel else l

/-- The distinct channels of the counted note-on messages, in order of
first appearance. -/
def distinctChannels (msgs : List AMsg) : List Nat :=
  msgs.foldl chanStep []

/-- Number of counted note-on messages with pitch below 60. -/
def lowCount (msgs : List AMsg) : Nat :=
  (msgs.filter (fun m => countedNoteOn m && decide (m.note < 60))).length

/-- Number of counted note-on messages with pitch at or above 60. -/
def highCount (msgs : List AMsg) : Nat :=
  (msgs.filter (fun m => countedNoteOn m && decide (60 ≤ m.note))).length

lemma foldl_analyzeMsg_channels :
    ∀ (msgs : List AMsg) (acc : TrackAccum) (b : Bool),
      ((msgs.foldl analyzeMsg (acc, b)).1).channels =
        msgs.foldl chanStep acc.channels := by
  intro msgs
  induction msgs with
  | nil => intro acc b; rfl
  | cons m rest ih =>
    intro acc b
    by_cases hc : m.type = AType.noteOn ∧ 0 < m.velocity
    · simp only [List.foldl_cons, analyzeMsg, if_pos hc, chanStep, countedNoteOn]
      rw [ih]
      simp [hc.1, hc.2]
    · simp only [List.foldl_cons, analyzeMsg, if_neg hc, chanStep, countedNoteOn]
      rw [ih]
      rcases not_and_or.mp hc with h | h <;> simp [h]

lemma foldl_analyzeMsg_low :
    ∀ (msgs : List AMsg) (acc : TrackAccum) (b : Bool),
      ((msgs.foldl analyzeMsg (acc, b)).1).low = acc.low + lowCount msgs := by
  intro msgs
  induction msgs with
  | nil => intro acc b; simp [lowCount]
  | cons m rest ih =>
    intro acc b
    by_cases hc : m.type = AType.noteOn ∧ 0 < m.velocity
    · simp only [List.foldl_cons, analyzeMsg, if_pos hc]
      rw [ih]
      by_cases hn : m.note < 60 <;>
        simp [lowCount, List.filter_cons, countedNoteOn, hc.1, hc.2, hn] <;> omega
    · simp only [List.foldl_cons, analyzeMsg, if_neg hc]
      rw [ih]
      have hcf : countedNoteOn m = false := by
        rcases not_and_or.mp hc with h | h <;> simp [countedNoteOn, h]
      simp [lowCount, List.filter_cons, hcf]

lemma foldl_analyzeMsg_high :
    ∀ (msgs : List AMsg) (acc : TrackAccum) (b : Bool),
      ((msgs.foldl analyzeMsg (acc, b)).1).high = acc.high + highCount msgs := by
  intro msgs
  induction msgs with
  | nil => intro acc b; simp [highCount]
  | cons m rest ih =>
    intro acc b
    by_cases hc : m.type = AType.noteOn ∧ 0 < m.velocity
    · simp only [List.foldl_cons, analyzeMsg, if_pos hc]
      rw [ih]
      by_cases hn : m.note < 60 <;>
        simp [highCount, List.filter_cons, countedNoteOn, hc.1, hc.2, hn, Nat.not_lt,
          Nat.le_of_not_lt] <;> omega
    · simp only [List.foldl_cons, analyzeMsg, if_neg hc]
      rw [ih]
      have hcf : countedNoteOn m = false := by
        rcases not_and_or.mp hc with h | h <;> simp [countedNoteOn, h]
      simp [highCount, List.filter_cons, hcf]

lemma analyzeTrack_channels (acc : TrackAccum) (track : List AMsg) :
    (analyzeTrack acc track).channels = track.foldl chanStep acc.channels := by
  simp only [analyzeTrack]
  split <;> simp [foldl_analyzeMsg_channels]

lemma analyzeTrack_low (acc : TrackAccum) (track : List AMsg) :
    (analyzeTrack acc track).low = acc.low + lowCount track := by
  simp only [analyzeTrack]
  split <;> simp [foldl_analyzeMsg_low]

lemma analyzeTrack_high (acc : TrackAccum) (track : List AMsg) :
    (analyzeTrack acc track).high = acc.high + highCount track := by
  simp only [analyzeTrack]
  split <;> simp [foldl_analyzeMsg_high]

lemma lowCount_append (l1 l2 : List AMsg) :
    lowCount (l1 ++ l2) = lowCount l1 + lowCount l2 := by
  simp [lowCount, List.filter_append]

lemma highCount_append (l1 l2 : List AMsg) :
    highCount (l1 ++ l2) = highCount l1 + highCount l2 := by
  simp [highCount, List.filter_append]

lemma tracksFold_channels :
    ∀ (tracks : List (List AMsg)) (acc : TrackAccum),
      (tracks.foldl analyzeTrack acc).channels =
        tracks.flatten.foldl chanStep acc.channels := by
  intro tracks
  induction tracks with
  | nil => intro acc; rfl
  | cons t rest ih =>
    intro acc
    rw [List.foldl_cons, ih, List.flatten_cons, List.foldl_append,
      analyzeTrack_channels]

lemma tracksFold_low :
    ∀ (tracks : List (List AMsg)) (acc : TrackAccum),
      (tracks.foldl analyzeTrack acc).low = acc.low + lowCount tracks.flatten := by
  intro tracks
  induction tracks with
  | nil => intro acc; simp [lowCount]
  | cons t rest ih =>
    intro acc
    rw [List.foldl_cons, ih, List.flatten_cons, lowCount_append, analyzeTrack_low]
    omega

lemma tracksFold_high :
    ∀ (tracks : List (List AMsg)) (acc : TrackAccum),
      (tracks.foldl analyzeTrack acc).high = acc.high + highCount tracks.flatten := by
  intro tracks
  induction tracks with
  | nil => intro acc; simp [highCount]
  | cons t rest ih =>
    intro acc
    rw [List.foldl_cons, ih, List.flatten_cons, highCount_append, analyzeTrack_high]
    omega

lemma analyzeTrackStructure_needsSeparation (tracks : List (List AMsg)) :
    (analyzeTrackStructure tracks).needsSeparation =
      decide ((distinctChannels tracks.flatten).length ≤ 1 ∧
        5 < lowCount tracks.flatten ∧ 5 < highCount tracks.flatten) := by
  have hch : (tracks.foldl analyzeTrack ⟨[], 0, 0, [], 0⟩).channels =
      distinctChannels tracks.flatten := tracksFold_channels tracks _
  have hlo : (tracks.foldl analyzeTrack ⟨[], 0, 0, [], 0⟩).low =
      lowCount tracks.flatten := by
    rw [tracksFold_low]; simp
  have hhi : (tracks.foldl analyzeTrack ⟨[], 0, 0, [], 0⟩).high =
      highCount tracks.flatten := by
    rw [tracksFold_high]; simp
  simp only [analyzeTrackStructure]
  split
  · next h =>
    rw [hch, hlo, hhi] at h
    simp [h]
  · next h =>
    rw [hch, hlo, hhi] at h
    simp [h]

/-- C7: `needs_separation` is true exactly when the counted note-on
messages use at most one MIDI channel AND more than 5 of them have
pitch below 60 AND more than 5 have pitch at or above 60; in
particular, with two or more channels in use the hand-split heuristic
is skipped. -/
theorem needs_separation_iff (tracks : List (List AMsg)) :
    ((analyzeTrackStructure tracks).needsSeparation = true ↔
      ((distinctChannels tracks.flatten).length ≤ 1 ∧
        5 < lowCount tracks.flatten ∧ 5 < highCount tracks.flatten))
    ∧ (2 ≤ (distinctChannels tracks.flatten).length →
        (analyzeTrackStructure tracks).needsSeparation = false) := by
  constructor
  · rw [analyzeTrackStructure_needsSeparation]
    simp
  · intro h2
    rw [analyzeTrackStructure_needsSeparation]
    simp only [decide_eq_false_iff_not]
    intro hcontra
    omega

/-- Witness for C7: a single track whose two counted note-on messages
sit on different channels (0 and 1) does not trigger separation. -/
theorem needs_separation_iff_witness :
    (analyzeTrackStructure
      [[⟨.noteOn, 50, 90, 0, 0⟩, ⟨.noteOn, 70, 90, 1, 0⟩]]).needsSeparation =
      false := by
  exact (needs_separation_iff
    [[⟨.noteOn, 50, 90, 0, 0⟩, ⟨.noteOn, 70, 90, 1, 0⟩]]).2 (by decide)

/-! ## Track Assembler, XML path
(xml_to_midi.py, `DirectXMLtoMIDIConverter.convert`) -/

/-- A resolved event after the per-hand channel tagging
(`event['channel'] = 0 / 1`). -/
structure NoteEv where
  tick : Nat
  kind : EvType
  pitch : Nat
  channel : Nat
deriving DecidableEq

/-- Channel tagging of a staff's events. -/
def tagChannel (c : Nat) (e : REvent) : NoteEv :=
  ⟨e.tick, e.kind, e.pitch, c⟩

/-- Insert `a` after all already-placed elements of key ≤ its own. -/
def insortBy {α : Type} (key : α → Nat) (a : α) : List α → List α
  | [] => [a]
  | b :: rest => if key b ≤ key a then b :: insortBy key a rest else a :: b :: rest

/-- Python `list.sort(key=...)`: a stable ascending sort.  As a
function, the stable sort by a key is uniquely determined, and this
left-to-right insertion sort (each element inserted after equal keys)
computes it. -/
def stableSortBy {α : Type} (key : α → Nat) (l : List α) : List α :=
  l.foldl (fun acc a => insortBy key a acc) []

/-- `all_midi_events.sort(key=lambda e: e['tick'])`. -/
def sortEvents (evs : List NoteEv) : List NoteEv :=
  stableSortBy (fun e => e.tick) evs

/-- `velocity = 90 if event['type'] == 'note_on' else 0`. -/
def velocityOf : EvType → Nat
  | .noteOn => 90
  | .noteOff => 0

/-- The delta-encoding loop of `convert`: two independent cursors
`last_tick_right` and `last_tick_left`; a channel-0 event is appended
to the right track with delta `tick - last_tick_right`, any other event
to the left track with delta `tick - last_tick_left`, each updating
only its own cursor.  An output entry `(d, e)` models
`Message(e.kind, note=e.pitch, velocity=velocityOf e.kind, time=d,
channel=e.channel)`. -/
def xmlAssemble : List NoteEv → Nat → Nat → List (Int × NoteEv) × List (Int × NoteEv)
  | [], _, _ => ([], [])
  | e :: rest, lastR, lastL =>
    if e.channel = 0 then
      let p := xmlAssemble rest e.tick lastL
      (((e.tick : Int) - (lastR : Int), e) :: p.1, p.2)
    else
      let p := xmlAssemble rest lastR e.tick
      (p.1, ((e.tick : Int) - (lastL : Int), e) :: p.2)

/-- Sum of the delta times of the first `n` entries of a track. -/
def prefixDelta {α : Type} (tr : List (Int × α)) (n : Nat) : Int :=
  ((tr.take n).map Prod.fst).sum

@[simp] lemma prefixDelta_zero {α : Type} (tr : List (Int × α)) :
    prefixDelta tr 0 = 0 := rfl

@[simp] lemma prefixDelta_cons {α : Type} (x : Int × α) (tr : List (Int × α))
    (n : Nat) : prefixDelta (x :: tr) (n + 1) = x.1 + prefixDelta tr n := by
  simp [prefixDelta]

/-- Delta encoding of a single already-filtered channel stream against
a running cursor. -/
def deltaEncN (last : Nat) : List NoteEv → List (Int × NoteEv)
  | [] => []
  | e :: rest => ((e.tick : Int) - (last : Int), e) :: deltaEncN e.tick rest

lemma xmlAssemble_right_eq :
    ∀ (evs : List NoteEv) (lastR lastL : Nat),
      (xmlAssemble evs lastR lastL).1 =
        deltaEncN lastR (evs.filter (fun x => decide (x.channel = 0))) := by
  intro evs
  induction evs with
  | nil => intro lastR lastL; rfl
  | cons e rest ih =>
    intro lastR lastL
    by_cases hc : e.channel = 0
    · simp [xmlAssemble, List.filter_cons, hc, deltaEncN, ih]
    · simp [xmlAssemble, List.filter_cons, hc, ih]

lemma xmlAssemble_left_eq :
    ∀ (evs : List NoteEv) (lastR lastL : Nat),
      (xmlAssemble evs lastR lastL).2 =
        deltaEncN lastL (evs.filter (fun x => decide (x.channel ≠ 0))) := by
  intro evs
  induction evs with
  | nil => intro lastR lastL; rfl
  | cons e rest ih =>
    intro lastR lastL
    by_cases hc : e.channel = 0
    · simp only [xmlAssemble, if_pos hc, List.filter_cons, hc, ih]
      simp
    · simp only [xmlAssemble, if_neg hc, List.filter_cons, ih]
      simp [hc, deltaEncN]

lemma deltaEncN_sums :
    ∀ (l : List NoteEv) (last : Nat) (i : Nat) (e : NoteEv),
      l.get? i = some e →
      prefixDelta (deltaEncN last l) (i + 1) = (e.tick : Int) - (last : Int) := by
  intro l
  induction l with
  | nil => intro last i e h; simp at h
  | cons e0 rest ih =>
    intro last i e h
    cases i with
    | zero =>
      simp only [List.get?_cons_zero, Option.some.injEq] at h
      subst h
      simp [deltaEncN]
    | succ j =>
      simp only [List.get?_cons_succ] at h
      have := ih e0.tick j e h
      simp only [deltaEncN, prefixDelta_cons, this]
      omega

/-! ## Track Assembler, separated-MIDI path
(advanced_mscz_converter.py, `_create_separated_midi`) -/

/-- Absolute-time extraction of one track: `track_time += msg.time`,
keeping only note_on/note_off/control_change/program_change messages
paired with their absolute time. -/
def trackAbsEvents : Nat → List AMsg → List (Nat × AMsg)
  | _, [] => []
  | t, m :: rest =>
    let t2 := t + m.time
    if m.type = .noteOn ∨ m.type = .noteOff ∨ m.type = .controlChange ∨
        m.type = .programChange then
      (t2, m) :: trackAbsEvents t2 rest
    else trackAbsEvents t2 rest

/-- `combined_events`: the per-track absolute-time events of all
tracks, concatenated in track order. -/
def combinedEvents (tracks : List (List AMsg)) : List (Nat × AMsg) :=
  (tracks.map (trackAbsEvents 0)).flatten

/-- `combined_events.sort(key=lambda x: x[0])`. -/
def sortedCombined (tracks : List (List AMsg)) : List (Nat × AMsg) :=
  stableSortBy (fun tm => tm.1) (combinedEvents tracks)

/-- `msg.copy()` with the channel overwritten. -/
def setChannelA (c : Nat) (m : AMsg) : AMsg :=
  { m with channel := c }

/-- The routing loop of `_create_separated_midi`: note messages go
right (channel 0) when `note >= split_point`, else left (channel 1);
control/program changes are duplicated onto both hands; each appended
message carries the delta against its own hand's cursor, and only the
receiving hand's cursor advances (both advance on duplicated
controls).  An output entry `(d, m)` models `msg.copy()` with
`time = d` and the shown channel. -/
def sepLoop (split : Nat) :
    List (Nat × AMsg) → Nat → Nat → List (Int × AMsg) × List (Int × AMsg)
  | [], _, _ => ([], [])
  | (t, m) :: rest, lastR, lastL =>
    if m.type = .noteOn ∨ m.type = .noteOff then
      if split ≤ m.note then
        let p := sepLoop split rest t lastL
        (((t : Int) - (lastR : Int), setChannelA 0 m) :: p.1, p.2)
      else
        let p := sepLoop split rest lastR t
        (p.1, ((t : Int) - (lastL : Int), setChannelA 1 m) :: p.2)
    else if m.type = .controlChange ∨ m.type = .programChange then
      let p := sepLoop split rest t t
      (((t : Int) - (lastR : Int), setChannelA 0 m) :: p.1,
        ((t : Int) - (lastL : Int), setChannelA 1 m) :: p.2)
    else
      sepLoop split rest lastR lastL

/-- The note-event track pair built by `_create_separated_midi` (after
its meta/program preamble, which is all at delta 0). -/
def createSeparatedTracks (split : Nat) (tracks : List (List AMsg)) :
    List (Int × AMsg) × List (Int × AMsg) :=
  sepLoop split (sortedCombined tracks) 0 0

/-- Events routed to the right hand: high-register notes and the
duplicated control/program changes. -/
def goesRight (split : Nat) (tm : Nat × AMsg) : Bool :=
  ((decide (tm.2.type = AType.noteOn) || decide (tm.2.type = AType.noteOff)) &&
      decide (split ≤ tm.2.note)) ||
    (decide (tm.2.type = AType.controlChange) ||
      decide (tm.2.type = AType.programChange))

/-- Events routed to the left hand: low-register notes and the
duplicated control/program changes. -/
def goesLeft (split : Nat) (tm : Nat × AMsg) : Bool :=
  ((decide (tm.2.type = AType.noteOn) || decide (tm.2.type = AType.noteOff)) &&
      decide (tm.2.note < split)) ||
    (decide (tm.2.type = AType.controlChange) ||
      decide (tm.2.type = AType.programChange))

/-- Delta encoding with channel retagging for the separated path. -/
def deltaEncA (c : Nat) (last : Nat) : List (Nat × AMsg) → List (Int × AMsg)
  | [] => []
  | (t, m) :: rest => ((t : Int) - (last : Int), setChannelA c m) :: deltaEncA c t rest

lemma sepLoop_right_eq (split : Nat) :
    ∀ (evs : List (Nat × AMsg)) (lastR lastL : Nat),
      (sepLoop split evs lastR lastL).1 =
        deltaEncA 0 lastR (evs.filter (goesRight split)) := by
  intro evs
  induction evs with
  | nil => intro lastR lastL; rfl
  | cons tm rest ih =>
    obtain ⟨t, m⟩ := tm
    intro lastR lastL
    cases htype : m.type
    case noteOn =>
      by_cases hn : split ≤ m.note
      · simp [sepLoop, htype, hn, List.filter_cons, goesRight, deltaEncA, ih]
      · simp [sepLoop, htype, hn, List.filter_cons, goesRight, ih]
    case noteOff =>
      by_cases hn : split ≤ m.note
      · simp [sepLoop, htype, hn, List.filter_cons, goesRight, deltaEncA, ih]
      · simp [sepLoop, htype, hn, List.filter_cons, goesRight, ih]
    case controlChange =>
      simp [sepLoop, htype, List.filter_cons, goesRight, deltaEncA, ih]
    case programChange =>
      simp [sepLoop, htype, List.filter_cons, goesRight, deltaEncA, ih]
    case otherType =>
      simp [sepLoop, htype, List.filter_cons, goesRight, ih]

lemma sepLoop_left_eq (split : Nat) :
    ∀ (evs : List (Nat × AMsg)) (lastR lastL : Nat),
      (sepLoop split evs lastR lastL).2 =
        deltaEncA 1 lastL (evs.filter (goesLeft split)) := by
  intro evs
  induction evs with
  | nil => intro lastR lastL; rfl
  | cons tm rest ih =>
    obtain ⟨t, m⟩ := tm
    intro lastR lastL
    cases htype : m.type
    case noteOn =>
      by_cases hn : split ≤ m.note
      · simp [sepLoop, htype, hn, Nat.not_lt.mpr hn, List.filter_cons, goesLeft, ih]
      · simp [sepLoop, htype, hn, Nat.lt_of_not_le hn, List.filter_cons, goesLeft,
          deltaEncA, ih]
    case noteOff =>
      by_cases hn : split ≤ m.note
      · simp [sepLoop, htype, hn, Nat.not_lt.mpr hn, List.filter_cons, goesLeft, ih]
      · simp [sepLoop, htype, hn, Nat.lt_of_not_le hn, List.filter_cons, goesLeft,
          deltaEncA, ih]
    case controlChange =>
      simp [sepLoop, htype, List.filter_cons, goesLeft, deltaEncA, ih]
    case programChange =>
      simp [sepLoop, htype, List.filter_cons, goesLeft, deltaEncA, ih]
    case otherType =>
      simp [sepLoop, htype, List.filter_cons, goesLeft, ih]

lemma deltaEncA_sums (c : Nat) :
    ∀ (l : List (Nat × AMsg)) (last : Nat) (i : Nat) (te : Nat × AMsg),
      l.get? i = some te →
      prefixDelta (deltaEncA c last l) (i + 1) = (te.1 : Int) - (last : Int) := by
  intro l
  induction l with
  | nil => intro last i te h; simp at h
  | cons tm rest ih =>
    obtain ⟨t, m⟩ := tm
    intro last i te h
    cases i with
    | zero =>
      simp only [List.get?_cons_zero, Option.some.injEq] at h
      subst h
      simp [deltaEncA]
    | succ j =>
      simp only [List.get?_cons_succ] at h
      have := ih t j te h
      simp only [deltaEncA, prefixDelta_cons, this]
      omega

/-- C3: in every output track of both track assemblers, each event's
delta time is computed against the last emitted tick on that event's
own channel (independent per-channel cursors), so the sum of the delta
times up to and including any event equals that event's absolute tick —
in particular for simultaneous events at one absolute tick on the two
different channels, each channel's delta is computed against its own
cursor, not a shared one. -/
theorem track_deltas_sum_to_tick :
    (∀ (evs : List NoteEv) (i : Nat) (e : NoteEv),
        ((sortEvents evs).filter (fun x => decide (x.channel = 0))).get? i =
          some e →
        prefixDelta ((xmlAssemble (sortEvents evs) 0 0).1) (i + 1) =
          (e.tick : Int))
    ∧ (∀ (evs : List NoteEv) (i : Nat) (e : NoteEv),
        ((sortEvents evs).filter (fun x => decide (x.channel ≠ 0))).get? i =
          some e →
        prefixDelta ((xmlAssemble (sortEvents evs) 0 0).2) (i + 1) =
          (e.tick : Int))
    ∧ (∀ (split : Nat) (tracks : List (List AMsg)) (i : Nat) (te : Nat × AMsg),
        ((sortedCombined tracks).filter (goesRight split)).get? i = some te →
        prefixDelta ((createSeparatedTracks split tracks).1) (i + 1) =
          (te.1 : Int))
    ∧ (∀ (split : Nat) (tracks : List (List AMsg)) (i : Nat) (te : Nat × AMsg),
        ((sortedCombined tracks).filter (goesLeft split)).get? i = some te →
        prefixDelta ((createSeparatedTracks split tracks).2) (i + 1) =
          (te.1 : Int)) := by
  refine ⟨?_, ?_, ?_, ?_⟩
  · intro evs i e h
    rw [xmlAssemble_right_eq]
    have := deltaEncN_sums _ 0 i e h
    simpa using this
  · intro evs i e h
    rw [xmlAssemble_left_eq]
    have := deltaEncN_sums _ 0 i e h
    simpa using this
  · intro split tracks i te h
    rw [createSeparatedTracks, sepLoop_right_eq]
    have := deltaEncA_sums 0 _ 0 i te h
    simpa using this
  · intro split tracks i te h
    rw [createSeparatedTracks, sepLoop_left_eq]
    have := deltaEncA_sums 1 _ 0 i te h
    simpa using this

/-- Witness for C3: four events with a simultaneous pair at tick 960 on
channels 0 and 1 (each channel's previous event at a different tick);
both channels' delta sums reach 960, and the separated-MIDI path's two
tracks likewise reach their events' absolute tick 100. -/
theorem track_deltas_sum_to_tick_witness :
    prefixDelta ((xmlAssemble (sortEvents
      [⟨480, .noteOn, 70, 0⟩, ⟨240, .noteOn, 40, 1⟩,
       ⟨960, .noteOn, 72, 0⟩, ⟨960, .noteOn, 45, 1⟩]) 0 0).1) 2 = (960 : Int) ∧
    prefixDelta ((xmlAssemble (sortEvents
      [⟨480, .noteOn, 70, 0⟩, ⟨240, .noteOn, 40, 1⟩,
       ⟨960, .noteOn, 72, 0⟩, ⟨960, .noteOn, 45, 1⟩]) 0 0).2) 2 = (960 : Int) ∧
    prefixDelta ((createSeparatedTracks 60
      [[⟨.noteOn, 50, 90, 0, 100⟩, ⟨.noteOn, 70, 90, 0, 0⟩]]).1) 1 = (100 : Int) ∧
    prefixDelta ((createSeparatedTracks 60
      [[⟨.noteOn, 50, 90, 0, 100⟩, ⟨.noteOn, 70, 90, 0, 0⟩]]).2) 1 = (100 : Int) := by
  refine ⟨?_, ?_, ?_, ?_⟩
  · simpa using track_deltas_sum_to_tick.1
      [⟨480, .noteOn, 70, 0⟩, ⟨240, .noteOn, 40, 1⟩,
       ⟨960, .noteOn, 72, 0⟩, ⟨960, .noteOn, 45, 1⟩] 1 ⟨960, .noteOn, 72, 0⟩
      (by decide)
  · simpa using track_deltas_sum_to_tick.2.1
      [⟨480, .noteOn, 70, 0⟩, ⟨240, .noteOn, 40, 1⟩,
       ⟨960, .noteOn, 72, 0⟩, ⟨960, .noteOn, 45, 1⟩] 1 ⟨960, .noteOn, 45, 1⟩
      (by decide)
  · simpa using track_deltas_sum_to_tick.2.2.1 60
      [[⟨.noteOn, 50, 90, 0, 100⟩, ⟨.noteOn, 70, 90, 0, 0⟩]] 0
      (100, ⟨.noteOn, 70, 90, 0, 0⟩) (by decide)
  · simpa using track_deltas_sum_to_tick.2.2.2 60
      [[⟨.noteOn, 50, 90, 0, 100⟩, ⟨.noteOn, 70, 90, 0, 0⟩]] 0
      (100, ⟨.noteOn, 50, 90, 0, 100⟩) (by decide)

/-! ## Conversion entry points (C6) -/

/-- An output message of the XML conversion path, paired with its delta
time in the track. -/
inductive XKind where
  | trackName (name : String)
  | keySignature (key : String)
  | programChange (channel program : Nat)
  | noteMsg (kind : EvType) (pitch velocity channel : Nat)
deriving DecidableEq

/-- The score document after container extraction and `Division`
parsing: the parsed division, all `KeySig` declarations in document
order, and all `Score/Staff` elements. -/
structure ScoreDoc where
  division : Nat
  keySigs : List KeySig
  staves : List Staff

/-- The three leading meta/program messages of each hand's track, all
at delta time 0. -/
def metaHeader (name key : String) (ch : Nat) : List (Int × XKind) :=
  [(0, .trackName name), (0, .keySignature key), (0, .programChange ch 0)]

/-- An encoded note entry as the mido message appended by `convert`. -/
def toXMsg (de : Int × NoteEv) : Int × XKind :=
  (de.1, .noteMsg de.2.kind de.2.pitch (velocityOf de.2.kind) de.2.channel)

/-- `DirectXMLtoMIDIConverter.convert` after container extraction and
`Division` parsing: fail (return False, modelled `none`) when fewer
than two staves exist; otherwise resolve the key signature, assemble
both staves' events tagged with channels 0/1, sort by tick and
delta-encode into the two hand tracks with their meta preambles. -/
def xmlConvert (doc : ScoreDoc) : Option (List (List (Int × XKind))) :=
  match doc.staves with
  | s0 :: s1 :: _ =>
    let key := getKeySignature doc.keySigs
    let rightEvents := (getNoteEventsFromStaff doc.division s0).map (tagChannel 0)
    let leftEvents := (getNoteEventsFromStaff doc.division s1).map (tagChannel 1)
    let sorted := sortEvents (rightEvents ++ leftEvents)
    let tracksRL := xmlAssemble sorted 0 0
    some [metaHeader "Mano Derecha" key 0 ++ tracksRL.1.map toXMsg,
          metaHeader "Mano Izquierda" key 1 ++ tracksRL.2.map toXMsg]
  | _ => none

/-- Message kinds of the re-encoding path of converter.py (mido types:
the two `note` kinds, `program_change`, meta messages, anything else). -/
inductive CKind where
  | noteOn
  | noteOff
  | progChange
  | metaEvent
  | otherEvent
deriving DecidableEq

/-- A mido message of the rendered MIDI (the meta payloads such as
track names are not inspected by the split logic and are not
modelled). -/
structure CMsg where
  kind : CKind
  channel : Nat
  time : Nat
deriving DecidableEq

/-- `msg.type.startswith('note')`. -/
def isNoteCMsg (m : CMsg) : Bool :=
  decide (m.kind = CKind.noteOn) || decide (m.kind = CKind.noteOff)

/-- `any(msg.type.startswith('note') for msg in track)`. -/
def trackHasNotes (t : List CMsg) : Bool :=
  t.any isNoteCMsg

/-- `msg.is_meta`. -/
def isMetaC (m : CMsg) : Bool :=
  decide (m.kind = CKind.metaEvent)

/-- One hand's re-encoded track: a `track_name` meta message, a
`program_change` on the hand's channel, then every source message with
non-meta messages re-channelled (`msg.copy(channel=ch)`). -/
def mkHandTrack (ch : Nat) (src : List CMsg) : List CMsg :=
  ⟨.metaEvent, 0, 0⟩ :: ⟨.progChange, ch, 0⟩ ::
    src.map (fun m => if isMetaC m then m else { m with channel := ch })

/-- `YamahaCSPConverter.convert`, step 2 (re-assembly of the rendered
MIDI): keep the tracks containing note messages; fail (return False,
modelled `none`) when fewer than two exist; otherwise re-encode the
first as the right hand (channel 0) and the second as the left hand
(channel 1). -/
def yamahaConvert (tracks : List (List CMsg)) : Option (List (List CMsg)) :=
  match tracks.filter trackHasNotes with
  | t0 :: t1 :: _ => some [mkHandTrack 0 t0, mkHandTrack 1 t1]
  | _ => none

/-- C6: when structural separation is expected and fewer than two
distinguishable note-bearing sources exist — fewer than two staves in
the XML path, or fewer than two note-bearing tracks in the re-encoding
path — the conversion reports an explicit failure (`none`, i.e. Python
`return False`) and produces no output tracks. -/
theorem insufficient_sources_fail :
    (∀ doc : ScoreDoc, doc.staves.length < 2 → xmlConvert doc = none)
    ∧ (∀ tracks : List (List CMsg),
        (tracks.filter trackHasNotes).length < 2 → yamahaConvert tracks = none) := by
  constructor
  · intro doc h
    match hm : doc.staves with
    | [] => simp [xmlConvert, hm]
    | [s] => simp [xmlConvert, hm]
    | a :: b :: r => rw [hm] at h; simp only [List.length_cons] at h; omega
  · intro tracks h
    match hm : tracks.filter trackHasNotes with
    | [] => simp [yamahaConvert, hm]
    | [t] => simp [yamahaConvert, hm]
    | a :: b :: r => rw [hm] at h; simp only [List.length_cons] at h; omega

/-- Witness for C6: a document with no staves and an empty rendered
MIDI both fail explicitly. -/
theorem insufficient_sources_fail_witness :
    xmlConvert ⟨480, [], []⟩ = none ∧ yamahaConvert [] = none := by
  exact ⟨insufficient_sources_fail.1 ⟨480, [], []⟩ (by decide),
    insufficient_sources_fail.2 [] (by decide)⟩

end Partituras
